import Mathlib

/-!
Shallow embedding of the conversational backend in `src/server.js` and proofs
about it.  JavaScript strings are modelled as Lean `String` (processed through
`String.data`), JavaScript numbers arising from term counts as `ℕ`, and the
floating-point cosine score as the exact real number given by the same formula.
Module-level mutable state (the vector store and the provider-rotation cursor)
is threaded explicitly; provider HTTP calls are an oracle parameter
`Provider → String → Except String String`; the filesystem seen by the
indexing endpoint is a record of read results.
-/

namespace Shyam

/-- ASCII lowercasing of a character, as JavaScript `toLowerCase` acts on the
ASCII range handled by the server. -/
def lowerChar (c : Char) : Char :=
  if 65 ≤ c.toNat ∧ c.toNat ≤ 90 then Char.ofNat (c.toNat + 32) else c

/-- Lowercase a whole string (`String(s).toLowerCase()` on ASCII data). -/
def lowerStr (s : String) : String :=
  String.mk (s.data.map lowerChar)

/-- JavaScript regex word-character class `\w`, that is `[A-Za-z0-9_]`. -/
def isWordChar (c : Char) : Bool :=
  (97 ≤ c.toNat && c.toNat ≤ 122) || (65 ≤ c.toNat && c.toNat ≤ 90) ||
    (48 ≤ c.toNat && c.toNat ≤ 57) || c == '_'

/-- Split a character list on maximal runs of non-word characters, dropping
empty pieces: the effect of `.split(/\W+/).filter(Boolean)`.  The accumulator
holds the current word run, reversed. -/
def splitNonWord : List Char → List Char → List (List Char)
  | [], acc => if acc.isEmpty then [] else [acc.reverse]
  | c :: rest, acc =>
    if isWordChar c then splitNonWord rest (c :: acc)
    else (if acc.isEmpty then [] else [acc.reverse]) ++ splitNonWord rest []

/-- `toks` from server.js line 29: lowercase, split on non-word runs, drop
empty tokens. -/
def toks (s : String) : List String :=
  (splitNonWord (s.data.map lowerChar) []).map fun l => String.mk l

/-- Substring containment on character lists (JavaScript `includes`). -/
def substrB (needle : List Char) : List Char → Bool
  | [] => needle.isEmpty
  | c :: rest => List.isPrefixOf needle (c :: rest) || substrB needle rest

/-- Suffix test on strings (JavaScript `endsWith`), computed on `.data`. -/
def endsWithB (s suffix : String) : Bool :=
  List.isSuffixOf suffix.data s.data

/-- A document as loaded by `/api/index`: id (filename) and raw text. -/
structure Doc where
  id : String
  text : String
deriving DecidableEq, Repr

/-- A stored document with its term-frequency embedding (server.js line 49). -/
structure EmbDoc where
  id : String
  text : String
  embedding : List ℕ
deriving DecidableEq, Repr

/-- The module-level `vectorStore` (server.js line 28). -/
structure VectorStore where
  docs : List EmbDoc
  vocab : List String
deriving DecidableEq, Repr

/-- `tfvec` (line 31): one coordinate per vocabulary word, counting its
occurrences among the text's tokens. -/
def tfvec (text : String) (vocab : List String) : List ℕ :=
  vocab.map fun w => ((toks text).filter fun t => t == w).length

/-- `dot` (line 32) on term-count vectors. -/
def dotN (a b : List ℕ) : ℕ :=
  (List.zipWith (fun x y => x * y) a b).sum

/-- The literal `1e-12` added to the denominator of `cosine` (line 34). -/
def epsQ : ℚ := 1 / 1000000000000

/-- `norm` (line 33) as an exact real. -/
noncomputable def normR (a : List ℕ) : ℝ :=
  Real.sqrt (dotN a a)

/-- `cosine` (line 34) as an exact real: dot over product of norms plus
epsilon.  The `!a || !b` guard never fires on the server's vectors. -/
noncomputable def cosR (a b : List ℕ) : ℝ :=
  (dotN a b : ℝ) / (normR a * normR b + (epsQ : ℝ))

/-- Decide `Real.sqrt X ≤ Real.sqrt Y + c` for naturals `X Y` and an integer
`c` by clearing square roots (correctness is proved in `sqrtLeB_iff`). -/
def sqrtLeB (X Y : ℕ) (c : ℤ) : Bool :=
  if 0 ≤ c then
    decide ((X : ℤ) ≤ (Y : ℤ) + c ^ 2) ||
      decide (((X : ℤ) - (Y : ℤ) - c ^ 2) ^ 2 ≤ 4 * c ^ 2 * (Y : ℤ))
  else
    decide (c ^ 2 ≤ (Y : ℤ)) && decide ((X : ℤ) ≤ (Y : ℤ) + c ^ 2) &&
      decide (4 * c ^ 2 * (Y : ℤ) ≤ ((Y : ℤ) + c ^ 2 - (X : ℤ)) ^ 2)

/-- The reciprocal of the `1e-12` epsilon, used to scale the score comparison
into integer arithmetic. -/
def scaleM : ℕ := 1000000000000

/-- Decide `cosR q a ≤ cosR q b` exactly (correctness in `cosLeB_iff`): the
comparison is multiplied through by the positive denominators and by
`scaleM`, turning it into a square-root comparison over naturals. -/
def cosLeB (q a b : List ℕ) : Bool :=
  sqrtLeB (scaleM ^ 2 * (dotN q a) ^ 2 * (dotN q q * dotN b b))
    (scaleM ^ 2 * (dotN q b) ^ 2 * (dotN q q * dotN a a))
    ((dotN q b : ℤ) - (dotN q a : ℤ))

/-- Comparator used by `retrieveTopK`: document `d` may precede document `e`
when `e`'s cosine score against the query vector is at most `d`'s, which is
how the comparator `(a,b) => b.score - a.score` orders a JavaScript sort. -/
def docLe (qv : List ℕ) (d e : EmbDoc) : Prop :=
  cosR qv e.embedding ≤ cosR qv d.embedding

/-- Stable insertion of a document into a score-sorted list, deciding the
real-number comparison with `cosLeB`. -/
def insertScored (qv : List ℕ) (d : EmbDoc) : List EmbDoc → List EmbDoc
  | [] => [d]
  | e :: rest =>
    if cosLeB qv e.embedding d.embedding then d :: e :: rest
    else e :: insertScored qv d rest

/-- Stable sort of the stored documents by non-increasing cosine score, the
effect of `scored.sort((a,b) => b.score - a.score)` (JavaScript sorts are
stable). -/
def sortScored (qv : List ℕ) : List EmbDoc → List EmbDoc
  | [] => []
  | d :: rest => insertScored qv d (sortScored qv rest)

/-- End index used by `.slice(0, k)`: a negative `k` counts back from the end
(clamped at 0), a non-negative `k` is used as is (clamped by `take`). -/
def jsSliceEnd (len : ℕ) (k : ℤ) : ℕ :=
  if k < 0 then ((len : ℤ) + k).toNat else k.toNat

/-- `retrieveTopK` (lines 57-62): empty result on an empty store, otherwise
embed the query against the current vocabulary, sort stored documents by
descending cosine score and `.slice(0, k)`. -/
def retrieveTopK (s : VectorStore) (query : String) (k : ℤ) : List EmbDoc :=
  if s.docs.length = 0 then []
  else
    let qv := tfvec query s.vocab
    let sorted := sortScored qv s.docs
    sorted.take (jsSliceEnd sorted.length k)

/-- One step of the frequency tabulation `f[t] = (f[t] || 0) + 1`, on an
association list in key-creation order. -/
def bump : List (String × ℕ) → String → List (String × ℕ)
  | [], t => [(t, 1)]
  | (s, n) :: rest, t =>
    if s = t then (s, n + 1) :: rest else (s, n) :: bump rest t

/-- Frequency table of a token stream, keys in first-encountered order. -/
def tally (ts : List String) : List (String × ℕ) :=
  ts.foldl bump []

/-- Lookup in the frequency table (0 for absent keys). -/
def cnt : List (String × ℕ) → String → ℕ
  | [], _ => 0
  | (s, n) :: rest, t => if s = t then n else cnt rest t

def isDigitChar (c : Char) : Bool :=
  48 ≤ c.toNat && c.toNat ≤ 57

def digitsToNat (l : List Char) : ℕ :=
  l.foldl (fun acc c => acc * 10 + (c.toNat - 48)) 0

/-- Canonical array-index property of JavaScript object keys: a string of
digits with no leading zero (except `"0"`), of value below `2^32 - 1`.  Such
keys are enumerated by `Object.keys` before all other keys, in ascending
numeric order. -/
def isArrayIndex (s : String) : Bool :=
  !s.data.isEmpty && s.data.all isDigitChar &&
    (s == "0" || s.data.head? != some '0') && decide (digitsToNat s.data < 4294967295)

/-- `Object.keys` enumeration order on the tabulated frequencies: canonical
array-index keys first in ascending numeric order, then the remaining keys in
insertion (first-encountered) order. -/
def objKeys (f : List (String × ℕ)) : List String :=
  List.insertionSort (fun a b => digitsToNat a.data ≤ digitsToNat b.data)
      ((f.map Prod.fst).filter isArrayIndex)
    ++ (f.map Prod.fst).filter fun s => !isArrayIndex s

/-- The global token stream tabulated by `buildVocab` (doc order, then token
order inside each document). -/
def vocabTally (docs : List Doc) : List (String × ℕ) :=
  tally (docs.flatMap fun d => toks d.text)

/-- `buildVocab` (line 30): tabulate frequencies, sort `Object.keys(f)` by
descending count (stable) and keep the first `maxV` terms. -/
def buildVocab (docs : List Doc) (maxV : ℕ) : List String :=
  let f := vocabTally docs
  (List.insertionSort (fun a b => cnt f b ≤ cnt f a) (objKeys f)).take maxV

/-- The vocabulary order described by the specification sentence for claim C8:
terms by descending total count with ties in first-encountered (tabulation)
order, written with the claim's words for comparison with `buildVocab`. -/
def buildVocabFirstSeen (docs : List Doc) (maxV : ℕ) : List String :=
  let f := vocabTally docs
  (List.insertionSort (fun a b => cnt f b ≤ cnt f a) (f.map Prod.fst)).take maxV

/-- The closed provider set (server.js lines 20-23). -/
inductive Provider where
  | google
  | openai
  | huggingface
deriving DecidableEq, Repr

/-- The configured provider list, one entry per supplied credential, in
declaration order (lines 20-23). -/
def configuredProviders (g o h : Bool) : List Provider :=
  (if g then [Provider.google] else []) ++ (if o then [Provider.openai] else []) ++
    (if h then [Provider.huggingface] else [])

/-- The module-level rotation state: configured list plus the unbounded
cursor `providerIndex` (line 24). -/
structure RouterState where
  providers : List Provider
  cursor : ℕ
deriving DecidableEq, Repr

/-- `providers[providerIndex % providers.length]`, with an arbitrary default
that is only reachable on an empty list (which `getNextProvider` guards). -/
def provAt (P : List Provider) (i : ℕ) : Provider :=
  P.getD (i % P.length) Provider.google

/-- `getNextProvider` (line 25): `null` on an empty configured set, otherwise
the provider at the cursor position modulo the length, incrementing the
cursor. -/
def getNextProvider (st : RouterState) : Option Provider × RouterState :=
  if st.providers.length = 0 then (none, st)
  else (some (provAt st.providers st.cursor), ⟨st.providers, st.cursor + 1⟩)

/-- Outcome of one provider HTTP call, supplied as an oracle: `ok` is the
extracted reply text, `error` the thrown message. -/
def Oracle : Type :=
  Provider → String → Except String String

/-- The attempt loop of `generateWithRotation` (lines 98-111), with the
remaining attempt count as fuel: select the next provider (cursor always
advances), skip it if already tried, otherwise dispatch and on failure record
the error and continue.  Returns the result, the final router state and the
list of providers actually called. -/
def rotLoop (oracle : Oracle) (prompt : String) :
    ℕ → List Provider → Option String → RouterState →
      Except String String × RouterState × List Provider
  | 0, _, lastErr, st => (Except.error (lastErr.getD "All providers failed"), st, [])
  | n + 1, tried, lastErr, st =>
    match getNextProvider st with
    | (none, st2) => rotLoop oracle prompt n tried lastErr st2
    | (some p, st2) =>
      if p ∈ tried then rotLoop oracle prompt n tried lastErr st2
      else
        match oracle p prompt with
        | Except.ok r => (Except.ok r, st2, [p])
        | Except.error e =>
          let rest := rotLoop oracle prompt n (p :: tried) (some e) st2
          (rest.1, rest.2.1, p :: rest.2.2)

/-- `generateWithRotation` (lines 95-113): immediate failure with no
providers configured, otherwise at most `min(maxTries, providers.length)`
attempts. -/
def generateWithRotation (oracle : Oracle) (prompt : String) (maxTries : ℕ)
    (st : RouterState) : Except String String × RouterState × List Provider :=
  if st.providers = [] then (Except.error "No providers configured", st, [])
  else rotLoop oracle prompt (min maxTries st.providers.length) [] none st

/-- `EMER_WORDS` (line 116). -/
def EMER_WORDS : List String :=
  ["suicide", "kill myself", "hurt myself", "overdose", "i want to die", "self harm"]

/-- `checkEmergency` (line 117): case-insensitive substring containment of
any emergency phrase. -/
def checkEmergency (text : String) : Bool :=
  EMER_WORDS.any fun w => substrB w.data (lowerStr text).data

/-- The alternatives of the booking-intent regex (line 138). -/
def BOOKING_WORDS : List String :=
  ["book", "appointment", "session", "slot"]

/-- Does one of the booking words, followed by a word boundary, start at the
head of `l`?  (`l` is already lowercased.) -/
def bookingWordHere (l : List Char) : Bool :=
  BOOKING_WORDS.any fun w =>
    List.isPrefixOf w.data l &&
      (match l.drop w.data.length with
       | [] => true
       | c :: _ => !isWordChar c)

/-- Scan for `/\b(book|appointment|session|slot)\b/` on a lowercased
character list; `prev` records whether the previous character was a word
character (no boundary there). -/
def bookingScan : Bool → List Char → Bool
  | _, [] => false
  | prev, c :: rest =>
    (!prev && bookingWordHere (c :: rest)) || bookingScan (isWordChar c) rest

/-- The test `/\b(book|appointment|session|slot)\b/i.test(message)`. -/
def bookingIntent (msg : String) : Bool :=
  bookingScan false (lowerStr msg).data

/-- Observable effects of one chat request: a retrieval pass over the store,
and individual provider dispatches. -/
inductive ChatEv where
  | retrieval
  | providerCall (p : Provider)
deriving DecidableEq, Repr

/-- Response of `/api/chat`: a JSON success body (reply, optional emergency
flag, optional booking object) or a 400 error. -/
inductive ChatResp where
  | ok (reply : String) (emergency : Bool) (booking : Option String)
  | badRequest (error : String)
deriving DecidableEq, Repr

/-- The booking URL carried by a response, if any. -/
def ChatResp.bookingOf : ChatResp → Option String
  | ChatResp.ok _ _ b => b
  | ChatResp.badRequest _ => none

/-- Process state and collaborators the chat handler reads. -/
structure ChatDeps where
  store : VectorStore
  router : RouterState
  oracle : Oracle
  bookingLink : String

/-- The fixed safety message (line 126). -/
def safetyText : String :=
  "I care about your safety. I cannot provide emergency services. Please call local emergency services or helplines: Vandrevala 1860-266-2345, iCall 9152987821. Would you like me to request an urgent booking?"

/-- JavaScript `String.trim` on the whitespace the server handles. -/
def jsTrim (s : String) : String :=
  String.mk (((s.data.dropWhile Char.isWhitespace).reverse.dropWhile Char.isWhitespace).reverse)

/-- `contextText` (line 131). -/
def contextText (top : List EmbDoc) : String :=
  String.intercalate "\n\n" (top.map fun t => "Document (" ++ t.id ++ "):\n" ++ t.text)

/-- The prompt template (line 132). -/
def buildPrompt (top : List EmbDoc) (message : String) : String :=
  "You are Shyam, an empathetic Indian counselling assistant. Use person-centered language, validation, and culturally sensitive examples. Do NOT provide medical prescriptions. Use context below:\n\n"
    ++ contextText top ++ "\n\nUser: " ++ message
    ++ "\n\nRespond warmly and ask permission before techniques. Keep reply concise."

/-- The deterministic fallback reply (line 146). -/
def demoReply (message : String) (top : List EmbDoc) : String :=
  let ids := String.intercalate ", " (top.map fun d => d.id)
  "[DEMO] I hear you said: \x27" ++ message ++ "\x27. Retrieved docs: "
    ++ (if ids = "" then "none" else ids) ++ "."

/-- The `/api/chat` handler (lines 120-152): validate, safety gate, retrieve,
prompt, rotate through providers if any are configured, demo fallback
otherwise or on total failure.  Returns the response, the router state after
the request, and the effect trace. -/
def chatHandler (deps : ChatDeps) (message : String) :
    ChatResp × RouterState × List ChatEv :=
  if message = "" then (ChatResp.badRequest "Provide message", deps.router, [])
  else if checkEmergency message then (ChatResp.ok safetyText true none, deps.router, [])
  else
    let top := retrieveTopK deps.store message 3
    let prompt := buildPrompt top message
    if deps.router.providers.length > 0 then
      match generateWithRotation deps.oracle prompt 3 deps.router with
      | (Except.ok reply, st2, tr) =>
        (ChatResp.ok (jsTrim reply) false
            (if bookingIntent message then some deps.bookingLink else none),
          st2, ChatEv.retrieval :: tr.map ChatEv.providerCall)
      | (Except.error _, st2, tr) =>
        (ChatResp.ok (demoReply message top) false none,
          st2, ChatEv.retrieval :: tr.map ChatEv.providerCall)
    else (ChatResp.ok (demoReply message top) false none, deps.router, [ChatEv.retrieval])

/-- The filesystem as `/api/index` sees it: the listing of the `knowledge`
subfolder (None when the folder does not exist), and file contents by name
joined to the install directory (`path.join(__dirname, name)`) respectively
to the knowledge subfolder (`path.join(__dirname, 'knowledge', name)`).  The
handler only ever reads through `readRoot` (line 46 joins `__dirname` with
the bare filename); `readKnowledge` records what the folder actually holds. -/
structure Fs where
  knowledgeDirFiles : Option (List String)
  readRoot : String → Option String
  readKnowledge : String → Option String

/-- Response of `/api/index`. -/
inductive IndexResp where
  | ok (indexed : ℕ)
  | clientError (msg : String)
  | serverError (msg : String)
deriving DecidableEq, Repr

/-- Document discovery (lines 38-44): `.txt`/`.md` entries of the knowledge
folder, else the `my_data.txt` fallback when that file exists. -/
def discoverFiles (fs : Fs) : List String :=
  let files :=
    match fs.knowledgeDirFiles with
    | some l => l.filter fun f => endsWithB f ".txt" || endsWithB f ".md"
    | none => []
  if files.isEmpty then
    if (fs.readRoot "my_data.txt").isSome then ["my_data.txt"] else []
  else files

/-- Read every discovered file from the install directory root (line 46); a
single missing file is the thrown `readFileSync` error. -/
def readDocs (fs : Fs) : List String → Option (List Doc)
  | [] => some []
  | fn :: rest =>
    match fs.readRoot fn, readDocs fs rest with
    | some text, some docs => some (⟨fn, text⟩ :: docs)
    | _, _ => none

/-- The `/api/index` handler (lines 36-55): 400 when nothing is discovered
(store untouched), 500 when a read throws (store untouched), otherwise the
store is replaced by the freshly embedded documents. -/
def indexHandler (fs : Fs) (store : VectorStore) : IndexResp × VectorStore :=
  let files := discoverFiles fs
  if files.isEmpty then
    (IndexResp.clientError "No knowledge files found. Add .txt/.md to ./knowledge or place my_data.txt",
      store)
  else
    match readDocs fs files with
    | none => (IndexResp.serverError "index failed", store)
    | some docs =>
      let vocab := buildVocab docs 400
      (IndexResp.ok docs.length,
        ⟨docs.map fun d => ⟨d.id, d.text, tfvec d.text vocab⟩, vocab⟩)

/-- Tag list elements with their positions starting at `n`. -/
def tagFrom (n : ℕ) : List α → List (ℕ × α)
  | [] => []
  | a :: l => (n, a) :: tagFrom (n + 1) l

/-- Order on position-tagged elements: strictly better by `r`, or tied (both
`r`-related) with the smaller original position first.  A stable sort by `r`
coincides with any sort by this relation. -/
def lexOf (r : α → α → Prop) (p q : ℕ × α) : Prop :=
  r p.2 q.2 ∧ (¬ r q.2 p.2 ∨ p.1 ≤ q.1)

instance lexOfDec (r : α → α → Prop) [DecidableRel r] : DecidableRel (lexOf r) :=
  fun p q => decidable_of_iff (r p.2 q.2 ∧ (¬ r q.2 p.2 ∨ p.1 ≤ q.1)) Iff.rfl

noncomputable instance docLeDec (qv : List ℕ) : DecidableRel (docLe qv) :=
  Classical.decRel _

/-- Reference rendering of the retrieval contract claimed for C3: documents
tagged with their storage position, sorted by non-increasing cosine score
with ties broken towards the smaller storage position, then cut by
`.slice(0, k)`. -/
noncomputable def retrieveTopKSpec (s : VectorStore) (query : String) (k : ℤ) :
    List EmbDoc :=
  if s.docs.length = 0 then []
  else
    let qv := tfvec query s.vocab
    let sorted :=
      (List.insertionSort (lexOf (docLe qv)) (tagFrom 0 s.docs)).map Prod.snd
    sorted.take (jsSliceEnd sorted.length k)

/-! ## Correctness of the integer score comparator -/

theorem sqrt_le_add_of_nonneg_c {X Y c : ℝ} (hY : 0 ≤ Y) (hc : 0 ≤ c) :
    Real.sqrt X ≤ Real.sqrt Y + c ↔
      X ≤ Y + c ^ 2 ∨ (X - Y - c ^ 2) ^ 2 ≤ 4 * c ^ 2 * Y := by
  have hsY : 0 ≤ Real.sqrt Y := Real.sqrt_nonneg Y
  have ht : 0 ≤ Real.sqrt Y + c := add_nonneg hsY hc
  have hsq : (Real.sqrt Y + c) ^ 2 = Y + 2 * c * Real.sqrt Y + c ^ 2 := by
    rw [add_sq, Real.sq_sqrt hY]; ring
  have h2cY : 0 ≤ 2 * c * Real.sqrt Y := by positivity
  have h4 : (2 * c * Real.sqrt Y) ^ 2 = 4 * c ^ 2 * Y := by
    rw [mul_pow, mul_pow, Real.sq_sqrt hY]; ring
  rw [Real.sqrt_le_left ht, hsq]
  constructor
  · intro h
    by_cases hL : X ≤ Y + c ^ 2
    · exact Or.inl hL
    · push_neg at hL
      right
      have h5 : X - Y - c ^ 2 ≤ 2 * c * Real.sqrt Y := by linarith
      calc (X - Y - c ^ 2) ^ 2 ≤ (2 * c * Real.sqrt Y) ^ 2 := by
            apply sq_le_sq' _ h5
            linarith
        _ = 4 * c ^ 2 * Y := h4
  · rintro (hL | hsqle)
    · linarith
    · by_cases hL : X ≤ Y + c ^ 2
      · linarith
      · push_neg at hL
        have hpos : 0 < X - Y - c ^ 2 := by linarith
        have h5 : X - Y - c ^ 2 ≤ 2 * c * Real.sqrt Y := by
          by_contra hab
          push_neg at hab
          have h6 := pow_lt_pow_left₀ hab h2cY (two_ne_zero)
          rw [h4] at h6
          linarith
        linarith

theorem sqrt_le_add_of_neg_c {X Y c : ℝ} (hY : 0 ≤ Y) (hc : c < 0) :
    Real.sqrt X ≤ Real.sqrt Y + c ↔
      c ^ 2 ≤ Y ∧ X ≤ Y + c ^ 2 ∧ 4 * c ^ 2 * Y ≤ (Y + c ^ 2 - X) ^ 2 := by
  have hsY : 0 ≤ Real.sqrt Y := Real.sqrt_nonneg Y
  have h0c : (0 : ℝ) ≤ -c := by linarith
  have hsq : (Real.sqrt Y + c) ^ 2 = Y + 2 * c * Real.sqrt Y + c ^ 2 := by
    rw [add_sq, Real.sq_sqrt hY]; ring
  have h7 : (2 * (-c) * Real.sqrt Y) ^ 2 = 4 * c ^ 2 * Y := by
    rw [mul_pow, mul_pow, Real.sq_sqrt hY]; ring
  have h2cY : 0 ≤ 2 * (-c) * Real.sqrt Y := by positivity
  constructor
  · intro h
    have ht : 0 ≤ Real.sqrt Y + c := le_trans (Real.sqrt_nonneg X) h
    have hY2 : -c ≤ Real.sqrt Y := by linarith
    have hc2 : c ^ 2 ≤ Y := by
      have := (Real.le_sqrt h0c hY).mp hY2
      rwa [neg_pow, Even.neg_one_pow (by decide), one_mul] at this
    have hXle : X ≤ (Real.sqrt Y + c) ^ 2 := (Real.sqrt_le_left ht).mp h
    rw [hsq] at hXle
    have hM : 2 * (-c) * Real.sqrt Y ≤ Y + c ^ 2 - X := by linarith
    have hMnn : 0 ≤ Y + c ^ 2 - X := le_trans h2cY hM
    refine ⟨hc2, by linarith, ?_⟩
    calc 4 * c ^ 2 * Y = (2 * (-c) * Real.sqrt Y) ^ 2 := h7.symm
      _ ≤ (Y + c ^ 2 - X) ^ 2 := pow_le_pow_left₀ h2cY hM 2
  · rintro ⟨hc2, hXle, hMsq⟩
    have hY2 : -c ≤ Real.sqrt Y := by
      rw [Real.le_sqrt h0c hY, neg_pow, Even.neg_one_pow (by decide), one_mul]
      exact hc2
    have ht : 0 ≤ Real.sqrt Y + c := by linarith
    rw [Real.sqrt_le_left ht, hsq]
    have hMnn : 0 ≤ Y + c ^ 2 - X := by linarith
    have h8 : 2 * (-c) * Real.sqrt Y ≤ Y + c ^ 2 - X := by
      by_contra hab
      push_neg at hab
      have h9 := pow_lt_pow_left₀ hab hMnn (two_ne_zero)
      rw [h7] at h9
      linarith
    linarith

theorem sqrtLeB_iff (X Y : ℕ) (c : ℤ) :
    (Real.sqrt (X : ℝ) ≤ Real.sqrt (Y : ℝ) + (c : ℝ)) ↔ sqrtLeB X Y c = true := by
  have hY : (0 : ℝ) ≤ (Y : ℝ) := Nat.cast_nonneg Y
  by_cases hc : 0 ≤ c
  · have hcR : (0 : ℝ) ≤ (c : ℝ) := by exact_mod_cast hc
    rw [sqrt_le_add_of_nonneg_c hY hcR]
    simp only [sqrtLeB, if_pos hc, Bool.or_eq_true, decide_eq_true_eq]
    constructor
    · rintro (h | h)
      · exact Or.inl (by exact_mod_cast h)
      · exact Or.inr (by exact_mod_cast h)
    · rintro (h | h)
      · exact Or.inl (by exact_mod_cast h)
      · exact Or.inr (by exact_mod_cast h)
  · have hcneg : c < 0 := lt_of_not_le hc
    have hcR : (c : ℝ) < 0 := by exact_mod_cast hcneg
    rw [sqrt_le_add_of_neg_c hY hcR]
    simp only [sqrtLeB, if_neg hc, Bool.and_eq_true, decide_eq_true_eq]
    constructor
    · rintro ⟨h1, h2, h3⟩
      exact ⟨⟨by exact_mod_cast h1, by exact_mod_cast h2⟩, by exact_mod_cast h3⟩
    · rintro ⟨⟨h1, h2⟩, h3⟩
      exact ⟨by exact_mod_cast h1, by exact_mod_cast h2, by exact_mod_cast h3⟩

theorem epsQ_cast_pos : (0 : ℝ) < (epsQ : ℝ) := by
  rw [show epsQ = 1 / 1000000000000 from rfl]
  norm_num

theorem scaleM_mul_epsQ : (scaleM : ℝ) * (epsQ : ℝ) = 1 := by
  rw [show epsQ = 1 / 1000000000000 from rfl, show scaleM = 1000000000000 from rfl]
  norm_num

theorem cosR_denom_pos (q v : List ℕ) : 0 < normR q * normR v + (epsQ : ℝ) := by
  have h1 : 0 ≤ normR q * normR v :=
    mul_nonneg (Real.sqrt_nonneg _) (Real.sqrt_nonneg _)
  linarith [epsQ_cast_pos]

/-- The integer comparator decides the exact real cosine comparison. -/
theorem cosLeB_iff (q a b : List ℕ) :
    cosR q a ≤ cosR q b ↔ cosLeB q a b = true := by
  have hM : (0 : ℝ) < (scaleM : ℝ) := by
    rw [show scaleM = 1000000000000 from rfl]; norm_num
  have hda := cosR_denom_pos q a
  have hdb := cosR_denom_pos q b
  rw [cosR, cosR, div_le_div_iff₀ hda hdb]
  have hQ : (0 : ℝ) ≤ (dotN q q : ℝ) := Nat.cast_nonneg _
  have hstep :
      (dotN q a : ℝ) * (normR q * normR b + (epsQ : ℝ)) ≤
          (dotN q b : ℝ) * (normR q * normR a + (epsQ : ℝ)) ↔
        Real.sqrt ((scaleM ^ 2 * (dotN q a) ^ 2 * (dotN q q * dotN b b) : ℕ) : ℝ) ≤
          Real.sqrt ((scaleM ^ 2 * (dotN q b) ^ 2 * (dotN q q * dotN a a) : ℕ) : ℝ) +
            (((dotN q b : ℤ) - (dotN q a : ℤ) : ℤ) : ℝ) := by
    have hsa : Real.sqrt ((scaleM ^ 2 * (dotN q a) ^ 2 * (dotN q q * dotN b b) : ℕ) : ℝ) =
        (scaleM : ℝ) * (dotN q a : ℝ) * (normR q * normR b) := by
      rw [normR, normR, ← Real.sqrt_mul (Nat.cast_nonneg _)]
      push_cast
      rw [show ((scaleM : ℝ)) ^ 2 * (dotN q a : ℝ) ^ 2 * ((dotN q q : ℝ) * (dotN b b : ℝ)) =
            ((scaleM : ℝ) * (dotN q a : ℝ)) ^ 2 * ((dotN q q : ℝ) * (dotN b b : ℝ)) by ring,
        Real.sqrt_mul (by positivity), Real.sqrt_sq (by positivity)]
    have hsb : Real.sqrt ((scaleM ^ 2 * (dotN q b) ^ 2 * (dotN q q * dotN a a) : ℕ) : ℝ) =
        (scaleM : ℝ) * (dotN q b : ℝ) * (normR q * normR a) := by
      rw [normR, normR, ← Real.sqrt_mul (Nat.cast_nonneg _)]
      push_cast
      rw [show ((scaleM : ℝ)) ^ 2 * (dotN q b : ℝ) ^ 2 * ((dotN q q : ℝ) * (dotN a a : ℝ)) =
            ((scaleM : ℝ) * (dotN q b : ℝ)) ^ 2 * ((dotN q q : ℝ) * (dotN a a : ℝ)) by ring,
        Real.sqrt_mul (by positivity), Real.sqrt_sq (by positivity)]
    rw [hsa, hsb]
    push_cast
    constructor
    · intro h
      have h2 :
          (scaleM : ℝ) * ((dotN q a : ℝ) * (normR q * normR b + (epsQ : ℝ))) ≤
            (scaleM : ℝ) * ((dotN q b : ℝ) * (normR q * normR a + (epsQ : ℝ))) :=
        mul_le_mul_of_nonneg_left h (le_of_lt hM)
      have h3 := scaleM_mul_epsQ
      nlinarith [h2]
    · intro h
      have h2 :
          (scaleM : ℝ) * ((dotN q a : ℝ) * (normR q * normR b + (epsQ : ℝ))) ≤
            (scaleM : ℝ) * ((dotN q b : ℝ) * (normR q * normR a + (epsQ : ℝ))) := by
        have h3 := scaleM_mul_epsQ
        nlinarith [h]
      exact le_of_mul_le_mul_left h2 hM
  rw [hstep, cosLeB, sqrtLeB_iff]

/-! ## The Bool insertion sort agrees with `List.insertionSort` by `docLe` -/

theorem insertScored_eq (qv : List ℕ) (d : EmbDoc) (l : List EmbDoc) :
    insertScored qv d l = List.orderedInsert (docLe qv) d l := by
  induction l with
  | nil => rfl
  | cons e rest ih =>
    by_cases h : cosLeB qv e.embedding d.embedding = true
    · rw [insertScored, if_pos h, List.orderedInsert,
        if_pos (show docLe qv d e from (cosLeB_iff qv e.embedding d.embedding).mpr h)]
    · rw [insertScored, if_neg h, List.orderedInsert,
        if_neg (show ¬ docLe qv d e from
          fun hd => h ((cosLeB_iff qv e.embedding d.embedding).mp hd)), ih]

theorem sortScored_eq (qv : List ℕ) (l : List EmbDoc) :
    sortScored qv l = List.insertionSort (docLe qv) l := by
  induction l with
  | nil => rfl
  | cons d rest ih => rw [sortScored, List.insertionSort, ih, insertScored_eq]

/-! ## Stability of insertion sort via position tagging -/

theorem mem_tagFrom {α : Type u_1} {p : ℕ × α} :
    ∀ {l : List α} {n : ℕ}, p ∈ tagFrom n l → n ≤ p.1 ∧ l[p.1 - n]? = some p.2 := by
  intro l
  induction l with
  | nil => intro n h; simp [tagFrom] at h
  | cons a l ih =>
    intro n h
    rw [tagFrom, List.mem_cons] at h
    rcases h with h | h
    · subst h
      exact ⟨le_rfl, by simp⟩
    · obtain ⟨h1, h2⟩ := ih h
      refine ⟨le_trans (Nat.le_succ n) h1, ?_⟩
      have he : p.1 - n = (p.1 - (n + 1)) + 1 := by omega
      rw [he, List.getElem?_cons_succ]
      exact h2

theorem tagFrom_nodup {α : Type u_1} : ∀ (l : List α) (n : ℕ), (tagFrom n l).Nodup := by
  intro l
  induction l with
  | nil => intro n; simp [tagFrom]
  | cons a l ih =>
    intro n
    rw [tagFrom]
    refine List.nodup_cons.mpr ⟨?_, ih (n + 1)⟩
    intro hmem
    have := (mem_tagFrom hmem).1
    omega

theorem tagFrom_map_snd {α : Type u_1} : ∀ (l : List α) (n : ℕ),
    (tagFrom n l).map Prod.snd = l := by
  intro l
  induction l with
  | nil => intro n; rfl
  | cons a l ih => intro n; rw [tagFrom, List.map_cons, ih (n + 1)]

theorem tagFrom_length {α : Type u_1} : ∀ (l : List α) (n : ℕ),
    (tagFrom n l).length = l.length := by
  intro l
  induction l with
  | nil => intro n; rfl
  | cons a l ih => intro n; rw [tagFrom, List.length_cons, ih (n + 1), List.length_cons]

theorem lexOf_total {α : Type u_1} (r : α → α → Prop)
    (htot : ∀ a b, r a b ∨ r b a) (p q : ℕ × α) : lexOf r p q ∨ lexOf r q p := by
  by_cases h1 : r p.2 q.2 <;> by_cases h2 : r q.2 p.2
  · rcases le_total p.1 q.1 with h | h
    · exact Or.inl ⟨h1, Or.inr h⟩
    · exact Or.inr ⟨h2, Or.inr h⟩
  · exact Or.inl ⟨h1, Or.inl h2⟩
  · exact Or.inr ⟨h2, Or.inl h1⟩
  · rcases htot p.2 q.2 with h | h
    · exact absurd h h1
    · exact absurd h h2

theorem lexOf_trans {α : Type u_1} (r : α → α → Prop)
    (htr : ∀ a b c, r a b → r b c → r a c) (p q s : ℕ × α)
    (h1 : lexOf r p q) (h2 : lexOf r q s) : lexOf r p s := by
  obtain ⟨hpq, hpq2⟩ := h1
  obtain ⟨hqs, hqs2⟩ := h2
  refine ⟨htr _ _ _ hpq hqs, ?_⟩
  rcases hpq2 with hnqp | hle1
  · exact Or.inl fun hsp => hnqp (htr _ _ _ hqs hsp)
  · rcases hqs2 with hnsq | hle2
    · exact Or.inl fun hsp => hnsq (htr _ _ _ hsp hpq)
    · exact Or.inr (le_trans hle1 hle2)

theorem orderedInsert_lexOf_map {α : Type u_1} (r : α → α → Prop) [DecidableRel r]
    (n : ℕ) (x : α) :
    ∀ (el : List (ℕ × α)), (∀ p ∈ el, n < p.1) →
      (List.orderedInsert (lexOf r) (n, x) el).map Prod.snd =
        List.orderedInsert r x (el.map Prod.snd) := by
  intro el
  induction el with
  | nil => intro _; rfl
  | cons q rest ih =>
    intro hgt
    by_cases hr : r x q.2
    · have hlex : lexOf r (n, x) q :=
        ⟨hr, Or.inr (le_of_lt (hgt q (List.mem_cons_self _ _)))⟩
      simp only [List.orderedInsert, List.map_cons]
      rw [if_pos hlex, if_pos hr]
      simp
    · have hlex : ¬ lexOf r (n, x) q := fun hl => hr hl.1
      simp only [List.orderedInsert, List.map_cons]
      rw [if_neg hlex, if_neg hr]
      simp only [List.map_cons, List.cons.injEq, true_and]
      exact ih fun p hp => hgt p (List.mem_cons_of_mem _ hp)

theorem insertionSort_tagFrom {α : Type u_1} (r : α → α → Prop) [DecidableRel r] :
    ∀ (l : List α) (n : ℕ),
      (List.insertionSort (lexOf r) (tagFrom n l)).map Prod.snd =
        List.insertionSort r l := by
  intro l
  induction l with
  | nil => intro n; rfl
  | cons x xs ih =>
    intro n
    rw [tagFrom, List.insertionSort, List.insertionSort]
    rw [orderedInsert_lexOf_map r n x _ ?hgt, ih (n + 1)]
    case hgt =>
      intro p hp
      have hmem : p ∈ tagFrom (n + 1) xs :=
        (List.perm_insertionSort (lexOf r) _).mem_iff.mp hp
      have := (mem_tagFrom hmem).1
      omega

/-- A sorted run of a stable insertion sort: consecutive elements are related
by `r`, and when they are tied (`r` holds both ways) the earlier original
position comes first.  Stated through `indexOf` over a duplicate-free input. -/
theorem insertionSort_pairwise_stable {α : Type u_1} (r : α → α → Prop)
    [DecidableRel r] [DecidableEq α]
    (htot : ∀ a b, r a b ∨ r b a) (htr : ∀ a b c, r a b → r b c → r a c)
    (keys : List α) (hnd : keys.Nodup) :
    (List.insertionSort r keys).Pairwise fun a b =>
      r a b ∧ (¬ r b a ∨ keys.indexOf a < keys.indexOf b) := by
  have hTmap := insertionSort_tagFrom r keys 0
  haveI : IsTotal (ℕ × α) (lexOf r) := ⟨lexOf_total r htot⟩
  haveI : IsTrans (ℕ × α) (lexOf r) := ⟨fun p q s => lexOf_trans r htr p q s⟩
  have hsorted : (List.insertionSort (lexOf r) (tagFrom 0 keys)).Pairwise (lexOf r) :=
    List.sorted_insertionSort (lexOf r) (tagFrom 0 keys)
  have hSnodup : (List.insertionSort (lexOf r) (tagFrom 0 keys)).Nodup :=
    ((List.perm_insertionSort (lexOf r) _).symm).nodup (tagFrom_nodup keys 0)
  have hidx : ∀ p ∈ List.insertionSort (lexOf r) (tagFrom 0 keys),
      keys[p.1]? = some p.2 := by
    intro p hp
    have hmem : p ∈ tagFrom 0 keys :=
      (List.perm_insertionSort (lexOf r) _).mem_iff.mp hp
    have h2 := (mem_tagFrom hmem).2
    simpa using h2
  have hcomb := hsorted.and hSnodup
  have htrans : (List.insertionSort (lexOf r) (tagFrom 0 keys)).Pairwise
      fun p q => r p.2 q.2 ∧ (¬ r q.2 p.2 ∨ keys.indexOf p.2 < keys.indexOf q.2) := by
    refine hcomb.imp_of_mem ?_
    intro p q hp hq hpq
    obtain ⟨⟨hr1, hor⟩, hne⟩ := hpq
    refine ⟨hr1, ?_⟩
    rcases hor with h | hle
    · exact Or.inl h
    · right
      obtain ⟨hplen, hpval⟩ := List.getElem?_eq_some.mp (hidx p hp)
      obtain ⟨hqlen, hqval⟩ := List.getElem?_eq_some.mp (hidx q hq)
      have e1 : keys.indexOf p.2 = p.1 := by
        rw [← hpval]; exact List.indexOf_getElem hnd _ _
      have e2 : keys.indexOf q.2 = q.1 := by
        rw [← hqval]; exact List.indexOf_getElem hnd _ _
      have hlt : p.1 < q.1 := by
        rcases lt_or_eq_of_le hle with h | h
        · exact h
        · exfalso
          apply hne
          have hv : p.2 = q.2 := by
            rw [← hpval, ← hqval]
            congr 1
          exact Prod.ext h hv
      rw [e1, e2]
      exact hlt
  rw [← hTmap]
  exact List.pairwise_map.mpr htrans

/-! ## Helper facts about the handlers -/

theorem tfvec_length (t : String) (v : List String) :
    (tfvec t v).length = v.length := by
  simp [tfvec]

theorem readDocs_none (fs : Fs) :
    ∀ (l : List String) (fn : String), fn ∈ l → fs.readRoot fn = none →
      readDocs fs l = none := by
  intro l
  induction l with
  | nil => intro fn h _; simp at h
  | cons a rest ih =>
    intro fn h hread
    rw [List.mem_cons] at h
    rw [readDocs]
    rcases h with h | h
    · subst h
      rw [hread]
    · rw [ih fn h hread]
      cases fs.readRoot a <;> rfl

/-- Sample dependencies used to witness the chat-handler theorems. -/
def depsA : ChatDeps :=
  ⟨⟨[], []⟩, ⟨[], 0⟩, fun _ _ => Except.error "down", ""⟩

/-- A store holding two documents with equal (zero) scores against any query
embedded over the empty vocabulary. -/
def storeAB : VectorStore :=
  ⟨[⟨"a", "", []⟩, ⟨"b", "", []⟩], []⟩

/-- A non-empty prior store, used to watch indexing failures leave it alone. -/
def storeB : VectorStore :=
  ⟨[⟨"a", "t", [1]⟩], ["t"]⟩

/-- A filesystem with no knowledge folder and no fallback file. -/
def fsEmpty : Fs :=
  ⟨none, fun _ => none, fun _ => none⟩

/-- A filesystem whose knowledge folder lists `k.txt` but where no file of
that name exists at the install root. -/
def fsC7 : Fs :=
  ⟨some ["k.txt"], fun _ => none, fun fn => if fn = "k.txt" then some "text" else none⟩

/-- A filesystem on which indexing succeeds with one document. -/
def fsW : Fs :=
  ⟨some ["a.txt"], (fun fn => if fn = "a.txt" then some "hello hello world" else none),
    fun _ => none⟩

/-- The store `fsW` indexing produces. -/
def wStore : VectorStore :=
  ⟨[⟨"a.txt", "hello hello world", [2, 1]⟩], ["hello", "world"]⟩

/-! ## C1: the safety gate short-circuits retrieval and generation -/

/-- C1: a chat request whose message contains an emergency phrase
(case-insensitively) gets the fixed safety reply with `emergency = true`, the
router state untouched, and an empty effect trace: no retrieval and no
provider call happen. -/
theorem c1_safety_gate (deps : ChatDeps) (message : String)
    (h : checkEmergency message = true) :
    chatHandler deps message = (ChatResp.ok safetyText true none, deps.router, []) := by
  have hne : message ≠ "" := by
    intro he
    rw [he] at h
    exact absurd h (by decide)
  rw [chatHandler, if_neg hne, if_pos h]

theorem c1_safety_gate_witness :
    checkEmergency "I want to die" = true ∧
      chatHandler depsA "I want to die" =
        (ChatResp.ok safetyText true none, depsA.router, []) :=
  ⟨by decide, c1_safety_gate depsA "I want to die" (by decide)⟩

/-! ## C4: well-formed chat requests always get a success reply -/

/-- C4: for every dependency record (any store, any providers, any oracle
behaviour) and every non-empty message, the chat handler answers with a
success response carrying some reply. -/
theorem c4_always_replies (deps : ChatDeps) (message : String) (h : message ≠ "") :
    ∃ reply emergency booking,
      (chatHandler deps message).1 = ChatResp.ok reply emergency booking := by
  simp only [chatHandler, if_neg h]
  split
  · exact ⟨safetyText, true, none, rfl⟩
  · split
    · split
      · exact ⟨_, _, _, rfl⟩
      · exact ⟨_, _, _, rfl⟩
    · exact ⟨_, _, _, rfl⟩

theorem c4_always_replies_witness :
    ∃ reply emergency booking,
      (chatHandler depsA "hello").1 = ChatResp.ok reply emergency booking :=
  c4_always_replies depsA "hello" (by decide)

/-! ## C5: indexing with nothing discovered is a 400 and keeps the store -/

/-- C5: when document discovery comes back empty, `/api/index` answers with
the fixed 400 message and returns the previous store entirely unchanged. -/
theorem c5_index_empty_discovery (fs : Fs) (store : VectorStore)
    (h : discoverFiles fs = []) :
    indexHandler fs store =
      (IndexResp.clientError
          "No knowledge files found. Add .txt/.md to ./knowledge or place my_data.txt",
        store) := by
  simp [indexHandler, h]

theorem c5_index_empty_discovery_witness :
    indexHandler fsEmpty storeB =
      (IndexResp.clientError
          "No knowledge files found. Add .txt/.md to ./knowledge or place my_data.txt",
        storeB) :=
  c5_index_empty_discovery fsEmpty storeB (by decide)

/-! ## C7: discovered files are read from the install root, not `knowledge/` -/

/-- C7: the handler reads each discovered filename joined to the install
directory root; when such a file is absent there, the whole indexing request
fails with the 500 `index failed` response and the store is unchanged — and
the contents of the knowledge folder itself (`readKnowledge`) are never
consulted, so changing them cannot help. -/
theorem c7_reads_root_not_knowledge (fs : Fs) (store : VectorStore) (fn : String)
    (hfn : fn ∈ discoverFiles fs) (hread : fs.readRoot fn = none) :
    indexHandler fs store = (IndexResp.serverError "index failed", store)
    ∧ ∀ g, indexHandler ⟨fs.knowledgeDirFiles, fs.readRoot, g⟩ store =
        indexHandler fs store := by
  constructor
  · have hne : ¬ (discoverFiles fs).isEmpty = true := by
      intro hemp
      rw [List.isEmpty_iff] at hemp
      rw [hemp] at hfn
      simp at hfn
    simp only [indexHandler, if_neg hne]
    rw [readDocs_none fs (discoverFiles fs) fn hfn hread]
  · intro g
    have h1 : discoverFiles ⟨fs.knowledgeDirFiles, fs.readRoot, g⟩ = discoverFiles fs := rfl
    have h2 : ∀ l, readDocs ⟨fs.knowledgeDirFiles, fs.readRoot, g⟩ l = readDocs fs l := by
      intro l
      induction l with
      | nil => rfl
      | cons a rest ih => rw [readDocs, readDocs, ih]
    simp only [indexHandler, h1, h2]

theorem c7_reads_root_not_knowledge_witness :
    "k.txt" ∈ discoverFiles fsC7 ∧
      indexHandler fsC7 storeB = (IndexResp.serverError "index failed", storeB) :=
  ⟨by decide,
    (c7_reads_root_not_knowledge fsC7 storeB "k.txt" (by decide) rfl).1⟩

/-! ## C10: vocabulary cap and embedding lengths -/

/-- C10: after a successful indexing pass the vocabulary has at most 400
terms, every stored embedding has exactly the vocabulary's length, and every
query embedded against that vocabulary (`tfvec`) also has exactly that
length. -/
theorem c10_vocab_embedding_lengths (fs : Fs) (store store2 : VectorStore) (n : ℕ)
    (h : indexHandler fs store = (IndexResp.ok n, store2)) :
    store2.vocab.length ≤ 400
    ∧ (∀ d ∈ store2.docs, d.embedding.length = store2.vocab.length)
    ∧ ∀ text : String, (tfvec text store2.vocab).length = store2.vocab.length := by
  simp only [indexHandler] at h
  by_cases hemp : (discoverFiles fs).isEmpty
  · rw [if_pos hemp] at h
    simp at h
  · rw [if_neg hemp] at h
    rcases hrd : readDocs fs (discoverFiles fs) with _ | docs
    · rw [hrd] at h
      simp at h
    · rw [hrd] at h
      have h2 : store2 =
          ⟨docs.map fun d => ⟨d.id, d.text, tfvec d.text (buildVocab docs 400)⟩,
            buildVocab docs 400⟩ := by
        have := congrArg Prod.snd h
        exact this.symm
      subst h2
      refine ⟨?_, ?_, ?_⟩
      · simp only [buildVocab, List.length_take]
        exact min_le_left _ _
      · intro d hd
        simp only [List.mem_map] at hd
        obtain ⟨d0, _, hd0⟩ := hd
        rw [← hd0]
        exact tfvec_length _ _
      · intro text
        exact tfvec_length _ _

/-! ## Router rotation: C2 and C9 -/

theorem provAt_mem (P : List Provider) (h : 0 < P.length) (i : ℕ) :
    provAt P i ∈ P := by
  rw [provAt, List.getD_eq_getElem P Provider.google (Nat.mod_lt i h)]
  exact List.getElem_mem _

theorem mod_shift_ne (len c d : ℕ) (hd0 : 0 < d) (hdlen : d < len) :
    (c + d) % len ≠ c % len := by
  intro h
  have hmod : Nat.ModEq len c (c + d) := h.symm
  have hdvd : len ∣ d := by
    have := (Nat.modEq_iff_dvd' (Nat.le_add_right c d)).mp hmod
    simpa using this
  have := Nat.le_of_dvd hd0 hdvd
  omega

theorem provAt_ne_of_mod_ne (P : List Provider) (hP : P.Nodup) (h : 0 < P.length)
    (i j : ℕ) (hij : i % P.length ≠ j % P.length) : provAt P i ≠ provAt P j := by
  intro he
  apply hij
  rw [provAt, provAt, List.getD_eq_getElem P Provider.google (Nat.mod_lt i h),
    List.getD_eq_getElem P Provider.google (Nat.mod_lt j h)] at he
  have hinj := List.nodup_iff_injective_get.mp hP
  have h2 : P.get ⟨i % P.length, Nat.mod_lt i h⟩ = P.get ⟨j % P.length, Nat.mod_lt j h⟩ := he
  exact congrArg Fin.val (hinj h2)

/-- With every configured provider failing, the attempt loop walks exactly
the `n` consecutive cursor positions, never revisits a provider, and ends
with the error of the provider at the last position. -/
theorem rotLoop_all_fail (oracle : Oracle) (prompt : String) (P : List Provider)
    (hP : P.Nodup) (err : Provider → String)
    (hfail : ∀ p ∈ P, oracle p prompt = Except.error (err p)) :
    ∀ (n : ℕ) (tried : List Provider) (lastErr : Option String) (c : ℕ),
      n + tried.length ≤ P.length →
      (∀ i < n, provAt P (c + i) ∉ tried) →
      rotLoop oracle prompt n tried lastErr ⟨P, c⟩ =
        (Except.error
            (if n = 0 then lastErr.getD "All providers failed"
             else err (provAt P (c + n - 1))),
          ⟨P, c + n⟩,
          (List.range n).map fun i => provAt P (c + i)) := by
  intro n
  induction n with
  | zero =>
    intro tried lastErr c _ _
    simp [rotLoop]
  | succ m ih =>
    intro tried lastErr c h1 h2
    have hlen : 0 < P.length := by omega
    have hlenne : ¬ P.length = 0 := by omega
    have hnotin : provAt P c ∉ tried := by
      have := h2 0 (Nat.succ_pos m)
      simpa using this
    have hmem : provAt P c ∈ P := provAt_mem P hlen c
    simp only [rotLoop, getNextProvider, if_neg hlenne]
    rw [if_neg hnotin]
    rw [hfail (provAt P c) hmem]
    simp only []
    rw [ih (provAt P c :: tried) (some (err (provAt P c))) (c + 1) ?hle ?hinv]
    case hle =>
      simp only [List.length_cons]
      omega
    case hinv =>
      intro i hi
      simp only [List.mem_cons, not_or]
      constructor
      · apply provAt_ne_of_mod_ne P hP hlen
        have he : c + 1 + i = c + (1 + i) := by omega
        rw [he]
        exact mod_shift_ne P.length c (1 + i) (by omega) (by omega)
      · have hmm := h2 (i + 1) (by omega)
        have he : c + (i + 1) = c + 1 + i := by omega
        rw [he] at hmm
        exact hmm
    refine Prod.ext ?_ (Prod.ext ?_ ?_)
    · simp only [if_neg (Nat.succ_ne_zero m)]
      by_cases hm : m = 0
      · subst hm
        simp
      · rw [if_neg hm]
        have he : c + 1 + m - 1 = c + (m + 1) - 1 := by omega
        rw [he]
    · have he : c + 1 + m = c + (m + 1) := by omega
      simp only []
      rw [he]
    · simp only []
      rw [List.range_succ_eq_map, List.map_cons, List.map_map]
      congr 1
      apply List.map_congr_left
      intro a _
      show provAt P (c + 1 + a) = provAt P (c + (a + 1))
      congr 1
      omega

/-- C2: with every configured provider failing, `generateWithRotation`
empty-set case fails immediately with `No providers configured`; otherwise it
calls exactly `min maxTries |providers|` distinct configured providers and
then fails with the error of the last provider called (or the generic
`All providers failed` when no attempt was made). -/
theorem c2_rotation_failover (g o h : Bool) (P : List Provider)
    (hgP : P = configuredProviders g o h) (cursor maxTries : ℕ) (prompt : String)
    (oracle : Oracle) (err : Provider → String)
    (hfail : ∀ p ∈ P, oracle p prompt = Except.error (err p)) :
    (P = [] →
      generateWithRotation oracle prompt maxTries ⟨P, cursor⟩ =
        (Except.error "No providers configured", ⟨P, cursor⟩, []))
    ∧ (P ≠ [] → ∀ res st2 tr,
        generateWithRotation oracle prompt maxTries ⟨P, cursor⟩ = (res, st2, tr) →
        tr.length = min maxTries P.length
        ∧ tr.Nodup
        ∧ (∀ p ∈ tr, p ∈ P)
        ∧ (∀ hne : tr ≠ [], res = Except.error (err (tr.getLast hne)))
        ∧ (tr = [] → res = Except.error "All providers failed")) := by
  have hnd : P.Nodup := by
    subst hgP
    cases g <;> cases o <;> cases h <;> decide
  constructor
  · intro hPe
    rw [generateWithRotation, if_pos hPe]
  · intro hPne res st2 tr heq
    have hlen : 0 < P.length := List.length_pos.mpr hPne
    have hloop := rotLoop_all_fail oracle prompt P hnd err hfail
      (min maxTries P.length) [] none cursor
      (by simp only [List.length_nil]; omega)
      (by intro i _; simp)
    rw [generateWithRotation, if_neg hPne, hloop] at heq
    simp only [Prod.mk.injEq] at heq
    obtain ⟨h1, h2, h3⟩ := heq
    subst h1
    subst h3
    refine ⟨by simp, ?_, ?_, ?_, ?_⟩
    · show List.Pairwise (fun a b => a ≠ b)
        ((List.range (min maxTries P.length)).map fun i => provAt P (cursor + i))
      rw [List.pairwise_map]
      refine (List.pairwise_lt_range _).imp_of_mem ?_
      intro i j hi hj hij
      rw [List.mem_range] at hi hj
      apply provAt_ne_of_mod_ne P hnd hlen
      intro hmod
      have hj2 : cursor + j = (cursor + i) + (j - i) := by omega
      rw [hj2] at hmod
      exact mod_shift_ne P.length (cursor + i) (j - i) (by omega) (by omega) hmod.symm
    · intro p hp
      rw [List.mem_map] at hp
      obtain ⟨i, _, hpi⟩ := hp
      rw [← hpi]
      exact provAt_mem P hlen _
    · intro hne
      have hn0 : min maxTries P.length ≠ 0 := by
        intro h0
        rw [h0] at hne
        simp at hne
      rw [if_neg hn0]
      have hlast : ((List.range (min maxTries P.length)).map
            fun i => provAt P (cursor + i)).getLast hne =
          provAt P (cursor + (min maxTries P.length - 1)) := by
        rw [List.getLast_eq_getElem]
        rw [List.getElem_map]
        congr 1
        rw [List.getElem_range]
        simp
      rw [hlast]
      have harith : cursor + min maxTries P.length - 1 =
          cursor + (min maxTries P.length - 1) := by omega
      rw [harith]
    · intro hemp
      have hn0 : min maxTries P.length = 0 := by
        by_contra h0
        rw [List.map_eq_nil_iff, List.range_eq_nil] at hemp
        exact h0 hemp
      rw [if_pos hn0]
      rfl

theorem c2_rotation_failover_witness :
    (generateWithRotation (fun _ _ => Except.error "boom") "p" 3
        ⟨configuredProviders true true false, 0⟩).2.2.length =
      min 3 (configuredProviders true true false).length ∧
    (generateWithRotation (fun _ _ => Except.error "boom") "p" 3
        ⟨configuredProviders true true false, 0⟩).1 =
      Except.error "boom" := by
  have h := c2_rotation_failover true true false (configuredProviders true true false)
    rfl 0 3 "p" (fun _ _ => Except.error "boom") (fun _ => "boom")
    (fun p _ => rfl)
  have h2 := h.2 (by decide)
    (generateWithRotation (fun _ _ => Except.error "boom") "p" 3
      ⟨configuredProviders true true false, 0⟩).1
    (generateWithRotation (fun _ _ => Except.error "boom") "p" 3
      ⟨configuredProviders true true false, 0⟩).2.1
    (generateWithRotation (fun _ _ => Except.error "boom") "p" 3
      ⟨configuredProviders true true false, 0⟩).2.2
    rfl
  refine ⟨h2.1, ?_⟩
  have h4 := h2.2.2.2.1 (by decide)
  rw [h4]

/-- C9: `getNextProvider` on a non-empty configured list returns the provider
at `cursor % length` and increments the unbounded cursor by exactly one; a
`generateWithRotation` call that succeeds on its first attempt advances the
cursor once, so a fresh call afterwards starts from the next provider in the
rotation. -/
theorem c9_cursor_monotone :
    (∀ (P : List Provider) (c : ℕ), P ≠ [] →
        getNextProvider ⟨P, c⟩ = (some (provAt P c), ⟨P, c + 1⟩))
    ∧ (∀ (P : List Provider) (c : ℕ) (h : 0 < P.length),
        provAt P c = P.get ⟨c % P.length, Nat.mod_lt c h⟩)
    ∧ (∀ (oracle : Oracle) (prompt : String) (maxTries : ℕ) (P : List Provider)
        (c : ℕ) (r : String), P ≠ [] → 0 < maxTries →
        oracle (provAt P c) prompt = Except.ok r →
        generateWithRotation oracle prompt maxTries ⟨P, c⟩ =
            (Except.ok r, ⟨P, c + 1⟩, [provAt P c])
        ∧ (getNextProvider ⟨P, c + 1⟩).1 = some (provAt P (c + 1))) := by
  have hstep : ∀ (P : List Provider) (c : ℕ), P ≠ [] →
      getNextProvider ⟨P, c⟩ = (some (provAt P c), ⟨P, c + 1⟩) := by
    intro P c hne
    have hlen : ¬ P.length = 0 := by
      have := List.length_pos.mpr hne
      omega
    rw [getNextProvider, if_neg hlen]
  refine ⟨hstep, ?_, ?_⟩
  · intro P c h
    rw [provAt, List.getD_eq_getElem P Provider.google (Nat.mod_lt c h)]
    simp
  · intro oracle prompt maxTries P c r hne hmt hok
    have hlen : 0 < P.length := List.length_pos.mpr hne
    have hlenne : ¬ P.length = 0 := by omega
    obtain ⟨m, hm⟩ := Nat.exists_eq_succ_of_ne_zero
      (show min maxTries P.length ≠ 0 by
        intro h0
        rw [Nat.min_eq_zero_iff] at h0
        omega)
    constructor
    · rw [generateWithRotation, if_neg hne, hm]
      simp only [rotLoop, getNextProvider, if_neg hlenne]
      rw [if_neg (List.not_mem_nil _)]
      rw [hok]
    · rw [hstep P (c + 1) hne]

theorem c9_cursor_monotone_witness :
    getNextProvider ⟨[Provider.google, Provider.openai], 0⟩ =
        (some Provider.google, ⟨[Provider.google, Provider.openai], 1⟩)
    ∧ generateWithRotation (fun _ _ => Except.ok "hi") "p" 3
          ⟨[Provider.google, Provider.openai], 0⟩ =
        (Except.ok "hi", ⟨[Provider.google, Provider.openai], 1⟩, [Provider.google])
    ∧ (getNextProvider ⟨[Provider.google, Provider.openai], 1⟩).1 =
        some Provider.openai := by
  have h1 := c9_cursor_monotone.1 [Provider.google, Provider.openai] 0 (by decide)
  have h3 := c9_cursor_monotone.2.2 (fun _ _ => Except.ok "hi") "p" 3
    [Provider.google, Provider.openai] 0 "hi" (by decide) (by decide) rfl
  exact ⟨by rw [h1]; rfl, by rw [h3.1]; rfl, by rw [h3.2]; rfl⟩

theorem c10_vocab_embedding_lengths_witness :
    wStore.vocab.length ≤ 400
    ∧ (∀ d ∈ wStore.docs, d.embedding.length = wStore.vocab.length)
    ∧ ∀ text : String, (tfvec text wStore.vocab).length = wStore.vocab.length :=
  c10_vocab_embedding_lengths fsW ⟨[], []⟩ wStore 1 (by decide)

/-! ## C3: the retrieval contract -/

/-- C3 (amended): `retrieveTopK` equals the position-stable sort of the
stored documents by non-increasing cosine score cut by `.slice(0, k)`; the
output is sorted by non-increasing score, holds at most `k` documents for
`k ≥ 0`, and is empty when the store is empty or `k = 0`.  For negative `k`
the JavaScript `slice` end-index semantics return all but the last `|k|`
documents instead of none. -/
theorem c3_retrieval_contract (s : VectorStore) (query : String) (k : ℤ) :
    retrieveTopK s query k = retrieveTopKSpec s query k
    ∧ (retrieveTopK s query k).Pairwise (docLe (tfvec query s.vocab))
    ∧ (0 ≤ k → (retrieveTopK s query k).length ≤ k.toNat)
    ∧ (s.docs = [] → retrieveTopK s query k = [])
    ∧ (k = 0 → retrieveTopK s query k = [])
    ∧ (k < 0 →
        (retrieveTopK s query k).length = ((s.docs.length : ℤ) + k).toNat) := by
  by_cases hd : s.docs.length = 0
  · have hdocs : s.docs = [] := List.length_eq_zero.mp hd
    refine ⟨by simp [retrieveTopK, retrieveTopKSpec, hd], by simp [retrieveTopK, hd],
      by simp [retrieveTopK, hd], by simp [retrieveTopK, hd], by simp [retrieveTopK, hd], ?_⟩
    intro hk
    simp [retrieveTopK, hd]
    omega
  · have hsort : sortScored (tfvec query s.vocab) s.docs =
        List.insertionSort (docLe (tfvec query s.vocab)) s.docs :=
      sortScored_eq _ _
    have hspec : (List.insertionSort (lexOf (docLe (tfvec query s.vocab)))
          (tagFrom 0 s.docs)).map Prod.snd =
        List.insertionSort (docLe (tfvec query s.vocab)) s.docs :=
      insertionSort_tagFrom _ s.docs 0
    have houtput : retrieveTopK s query k =
        (List.insertionSort (docLe (tfvec query s.vocab)) s.docs).take
          (jsSliceEnd (List.insertionSort (docLe (tfvec query s.vocab)) s.docs).length k) := by
      simp only [retrieveTopK, if_neg hd]
      rw [hsort]
    have hslen : (List.insertionSort (docLe (tfvec query s.vocab)) s.docs).length =
        s.docs.length := List.length_insertionSort _ _
    refine ⟨?_, ?_, ?_, ?_, ?_, ?_⟩
    · simp only [retrieveTopK, retrieveTopKSpec, if_neg hd]
      rw [hsort, hspec]
    · rw [houtput]
      refine List.Pairwise.sublist (List.take_sublist _ _) ?_
      haveI : IsTotal EmbDoc (docLe (tfvec query s.vocab)) := ⟨fun a b => le_total _ _⟩
      haveI : IsTrans EmbDoc (docLe (tfvec query s.vocab)) :=
        ⟨fun a b c h1 h2 => le_trans h2 h1⟩
      exact List.sorted_insertionSort _ _
    · intro hk
      rw [houtput, List.length_take, jsSliceEnd, if_neg (not_lt.mpr hk)]
      exact min_le_left _ _
    · intro h0
      exact absurd (by simp [h0]) hd
    · intro hk
      subst hk
      rw [houtput]
      simp [jsSliceEnd]
    · intro hk
      rw [houtput, List.length_take, jsSliceEnd, if_pos hk, hslen]
      have hle : (((s.docs.length : ℤ)) + k).toNat ≤ s.docs.length := by omega
      exact min_eq_left hle

theorem c3_retrieval_contract_witness :
    retrieveTopK storeB "hello" 0 = [] :=
  (c3_retrieval_contract storeB "hello" 0).2.2.2.2.1 rfl

/-- C3 counterexample: on a two-document store, `k = -1` (which is `≤ 0`)
does not return the empty sequence — `.slice(0, -1)` keeps the first
document. -/
theorem c3_counterexample :
    (-1 : ℤ) ≤ 0 ∧ retrieveTopK storeAB "x" (-1) ≠ [] :=
  ⟨by decide, by decide⟩

/-! ## C6: when the booking object is attached -/

/-- C6 (amended): the chat response carries `booking` exactly when the
message is non-empty and non-emergency, matches the booking-intent pattern,
at least one provider is configured, and the provider rotation returned a
generated reply — the demo fallback and the safety reply never attach
`booking`. -/
theorem c6_booking_only_on_generation (deps : ChatDeps) (message : String) :
    ((chatHandler deps message).1).bookingOf = some deps.bookingLink ↔
      (message ≠ "" ∧ checkEmergency message = false ∧ bookingIntent message = true
        ∧ 0 < deps.router.providers.length
        ∧ ∃ r, (generateWithRotation deps.oracle
              (buildPrompt (retrieveTopK deps.store message 3) message) 3 deps.router).1 =
            Except.ok r) := by
  by_cases h0 : message = ""
  · simp [chatHandler, h0, ChatResp.bookingOf]
  · by_cases he : checkEmergency message = true
    · simp [chatHandler, h0, he, ChatResp.bookingOf]
    · have he2 : checkEmergency message = false := by
        cases hh : checkEmergency message
        · rfl
        · exact absurd hh he
      by_cases hp : 0 < deps.router.providers.length
      · rcases hgen : generateWithRotation deps.oracle
            (buildPrompt (retrieveTopK deps.store message 3) message) 3 deps.router
          with ⟨res, st2, tr⟩
        cases res with
        | ok r =>
          by_cases hb : bookingIntent message = true
          · simp [chatHandler, h0, he2, hp, hgen, hb, ChatResp.bookingOf]
          · simp [chatHandler, h0, he2, hp, hgen, hb, ChatResp.bookingOf]
        | error e =>
          simp [chatHandler, h0, he2, hp, hgen, ChatResp.bookingOf]
      · simp [chatHandler, h0, he2, hp, ChatResp.bookingOf]

theorem c6_booking_only_on_generation_witness :
    ((chatHandler ⟨⟨[], []⟩, ⟨[Provider.google], 0⟩, fun _ _ => Except.ok "sure",
          "https://cal.example"⟩ "please book a session").1).bookingOf =
      some "https://cal.example" := by
  refine (c6_booking_only_on_generation
    ⟨⟨[], []⟩, ⟨[Provider.google], 0⟩, fun _ _ => Except.ok "sure",
      "https://cal.example"⟩ "please book a session").mpr ?_
  exact ⟨by decide, by decide, by decide, by decide, "sure", rfl⟩

/-- Dependencies with no provider configured, used to refute the original C6
reading: the booking-intent pattern matches but the demo fallback carries no
`booking`. -/
def c6Deps : ChatDeps :=
  ⟨⟨[], []⟩, ⟨[], 0⟩, fun _ _ => Except.error "no", "https://cal.example"⟩

/-- C6 counterexample: a non-emergency message matching the booking-intent
pattern whose response nevertheless has no `booking` field, because no
provider is configured and the handler falls back to the demo reply. -/
theorem c6_counterexample :
    bookingIntent "I\x27d like to book a session" = true
    ∧ checkEmergency "I\x27d like to book a session" = false
    ∧ ((chatHandler c6Deps "I\x27d like to book a session").1).bookingOf = none := by
  refine ⟨by decide, by decide, by decide⟩

/-! ## C8: the vocabulary order -/

theorem bump_keys (f : List (String × ℕ)) (t : String) :
    (bump f t).map Prod.fst =
      if t ∈ f.map Prod.fst then f.map Prod.fst else f.map Prod.fst ++ [t] := by
  induction f with
  | nil => simp [bump]
  | cons p rest ih =>
    rcases p with ⟨s, n⟩
    by_cases hst : s = t
    · subst hst
      simp [bump]
    · rw [bump, if_neg hst]
      simp only [List.map_cons, ih]
      by_cases hmem : t ∈ rest.map Prod.fst
      · rw [if_pos hmem, if_pos (by simp [hmem])]
      · rw [if_neg hmem, if_neg ?hno, List.cons_append]
        case hno =>
          simp only [List.mem_cons]
          rintro (h | h)
          · exact hst h.symm
          · exact hmem h

theorem keys_nodup_bump (f : List (String × ℕ)) (t : String)
    (h : (f.map Prod.fst).Nodup) : ((bump f t).map Prod.fst).Nodup := by
  rw [bump_keys]
  by_cases hmem : t ∈ f.map Prod.fst
  · rw [if_pos hmem]
    exact h
  · rw [if_neg hmem]
    refine List.Nodup.append h (List.nodup_singleton t) ?_
    intro a ha hb
    rw [List.mem_singleton] at hb
    subst hb
    exact hmem ha

theorem tally_keys_nodup (ts : List String) : ((tally ts).map Prod.fst).Nodup := by
  rw [tally]
  suffices h : ∀ acc : List (String × ℕ), (acc.map Prod.fst).Nodup →
      ((ts.foldl bump acc).map Prod.fst).Nodup by
    exact h [] (by simp)
  induction ts with
  | nil => intro acc h; simpa using h
  | cons a rest ih =>
    intro acc h
    rw [List.foldl_cons]
    exact ih (bump acc a) (keys_nodup_bump acc a h)

theorem objKeys_perm (f : List (String × ℕ)) :
    (objKeys f).Perm (f.map Prod.fst) := by
  rw [objKeys]
  have h1 := List.perm_insertionSort
    (fun a b => digitsToNat a.data ≤ digitsToNat b.data)
    ((f.map Prod.fst).filter isArrayIndex)
  exact (h1.append_right _).trans (List.filter_append_perm _ _)

theorem objKeys_nodup (f : List (String × ℕ)) (h : (f.map Prod.fst).Nodup) :
    (objKeys f).Nodup :=
  (objKeys_perm f).symm.nodup h

/-- C8 (amended): `buildVocab` keeps the first `maxVocab` entries of the
distinct terms ordered by descending total count, with equal counts ordered
by position in the `Object.keys` enumeration of the frequency table — that
enumeration lists canonical array-index (numeric-string) terms first in
ascending numeric order and only then the remaining terms in
first-encountered order.  Kept terms are pairwise distinct and their counts
dominate the counts of all dropped terms. -/
theorem c8_vocab_order (docs : List Doc) (maxV : ℕ) :
    (buildVocab docs maxV).Nodup
    ∧ (buildVocab docs maxV).length = min maxV (objKeys (vocabTally docs)).length
    ∧ (buildVocab docs maxV).Pairwise (fun a b =>
        cnt (vocabTally docs) b < cnt (vocabTally docs) a ∨
          (cnt (vocabTally docs) a = cnt (vocabTally docs) b ∧
            (objKeys (vocabTally docs)).indexOf a <
              (objKeys (vocabTally docs)).indexOf b))
    ∧ (∀ a ∈ buildVocab docs maxV, ∀ b ∈ (vocabTally docs).map Prod.fst,
        b ∉ buildVocab docs maxV →
          cnt (vocabTally docs) b ≤ cnt (vocabTally docs) a) := by
  have hknd : (objKeys (vocabTally docs)).Nodup :=
    objKeys_nodup _ (tally_keys_nodup _)
  have hbv : buildVocab docs maxV =
      (List.insertionSort (fun a b => cnt (vocabTally docs) b ≤ cnt (vocabTally docs) a)
        (objKeys (vocabTally docs))).take maxV := rfl
  have hfull_nodup :
      (List.insertionSort (fun a b => cnt (vocabTally docs) b ≤ cnt (vocabTally docs) a)
        (objKeys (vocabTally docs))).Nodup :=
    ((List.perm_insertionSort _ _).symm).nodup hknd
  have hstable := insertionSort_pairwise_stable
    (fun a b => cnt (vocabTally docs) b ≤ cnt (vocabTally docs) a)
    (fun a b => le_total _ _) (fun a b c h1 h2 => le_trans h2 h1)
    (objKeys (vocabTally docs)) hknd
  refine ⟨?_, ?_, ?_, ?_⟩
  · rw [hbv]
    exact List.Nodup.sublist (List.take_sublist _ _) hfull_nodup
  · rw [hbv, List.length_take, List.length_insertionSort]
  · rw [hbv]
    refine List.Pairwise.sublist (List.take_sublist _ _) ?_
    refine hstable.imp ?_
    rintro a b ⟨hab, hor⟩
    by_cases hlt : cnt (vocabTally docs) b < cnt (vocabTally docs) a
    · exact Or.inl hlt
    · have heq : cnt (vocabTally docs) a = cnt (vocabTally docs) b :=
        le_antisymm (not_lt.mp hlt) hab
      refine Or.inr ⟨heq, ?_⟩
      rcases hor with hn | hidx
      · exact absurd (le_of_eq heq) hn
      · exact hidx
  · intro a ha b hb hnb
    rw [hbv] at ha hnb
    have hbfull : b ∈ List.insertionSort
        (fun a b => cnt (vocabTally docs) b ≤ cnt (vocabTally docs) a)
        (objKeys (vocabTally docs)) :=
      ((List.perm_insertionSort _ _).mem_iff).mpr ((objKeys_perm _).symm.mem_iff.mp hb)
    have hsplit := List.take_append_drop maxV (List.insertionSort
      (fun a b => cnt (vocabTally docs) b ≤ cnt (vocabTally docs) a)
      (objKeys (vocabTally docs)))
    have hbdrop : b ∈ (List.insertionSort
        (fun a b => cnt (vocabTally docs) b ≤ cnt (vocabTally docs) a)
        (objKeys (vocabTally docs))).drop maxV := by
      rw [← hsplit, List.mem_append] at hbfull
      rcases hbfull with h | h
      · exact absurd h hnb
      · exact h
    have hpair : List.Pairwise
        (fun a b => cnt (vocabTally docs) b ≤ cnt (vocabTally docs) a)
        (List.insertionSort
          (fun a b => cnt (vocabTally docs) b ≤ cnt (vocabTally docs) a)
          (objKeys (vocabTally docs))) :=
      hstable.imp (fun h => h.1)
    have hsplit2 : List.Pairwise
        (fun a b => cnt (vocabTally docs) b ≤ cnt (vocabTally docs) a)
        ((List.insertionSort
            (fun a b => cnt (vocabTally docs) b ≤ cnt (vocabTally docs) a)
            (objKeys (vocabTally docs))).take maxV ++
          (List.insertionSort
            (fun a b => cnt (vocabTally docs) b ≤ cnt (vocabTally docs) a)
            (objKeys (vocabTally docs))).drop maxV) := by
      rw [hsplit]
      exact hpair
    exact (List.pairwise_append.mp hsplit2).2.2 a ha b hbdrop

theorem c8_vocab_order_witness :
    (buildVocab [⟨"d", "zz 7"⟩] 400).Nodup :=
  (c8_vocab_order [⟨"d", "zz 7"⟩] 400).1

/-- C8 counterexample: on a document whose tokens are `zz` then `7` (both of
count 1), first-encountered order would put `zz` first, but `Object.keys`
enumerates the array-index key `"7"` before the string key `"zz"`, so the
stable sort keeps `7` first. -/
theorem c8_counterexample :
    buildVocab [⟨"d", "zz 7"⟩] 400 = ["7", "zz"]
    ∧ buildVocabFirstSeen [⟨"d", "zz 7"⟩] 400 = ["zz", "7"]
    ∧ buildVocab [⟨"d", "zz 7"⟩] 400 ≠ buildVocabFirstSeen [⟨"d", "zz 7"⟩] 400 :=
  ⟨by decide, by decide, by decide⟩

end Shyam
